import Mathlib

/-!
Shallow embedding of the data-exploration dashboard in `src/app.py`.

The loaded dataset is a pandas DataFrame with columns `Year` (int),
`ISIC Rev 3` (string), `Industry_Category` (string) and
`Number of Employees` (numeric).  A DataFrame is modelled as an ordered
list of records; column selections followed by `.sum()` / `.mean()`
become list maps and folds; boolean-mask row selection (`df[mask]`)
becomes `List.filter`; `groupby(k)[v].sum()` (which sorts group keys
ascending) becomes a map over the sorted deduplicated key list.
-/

namespace IndustrialDashboard

/-- One row of `processed_industry_data.csv` as loaded by `load_data`:
`Year`, `ISIC Rev 3` (industry code), `Industry_Category`, and
`Number of Employees` (an integer count in the dataset). -/
structure Record where
  year : Int
  code : String
  cat : String
  value : Int
  deriving DecidableEq, Repr

/-- Line 73: `df if kpi_year_filter == all_years_option else df[df['Year'] == kpi_year_filter]`.
The sentinel `"Overall"` selection is modelled as `none`, a concrete year as `some y`. -/
def df_kpi_filtered (sel : Option Int) (df : List Record) : List Record :=
  match sel with
  | none => df
  | some y => df.filter (fun r => r.year == y)

/-- Line 80: `total_value = df_kpi_filtered['Number of Employees'].sum()`. -/
def total_value (t : List Record) : Int :=
  (t.map Record.value).sum

/-- Line 85: `avg_value = df_kpi_filtered['Number of Employees'].mean()`.
The pandas mean of an empty column is NaN, modelled as `none`; otherwise it is
the exact column sum divided by the row count. -/
def avg_value (t : List Record) : Option ℚ :=
  if t.length = 0 then none
  else some (((t.map Record.value).sum : ℚ) / (t.length : ℚ))

/-- Line 90: `latest_year_value = df_kpi_filtered['Number of Employees'].sum()` —
textually the same full-column sum as `total_value`, with no year restriction. -/
def latest_year_value (t : List Record) : Int :=
  (t.map Record.value).sum

/-- One filter predicate, as appearing in the script: year equality (line 73),
industry-code equality (line 219), industry-code membership / `isin`
(line 139), category membership / `isin` (line 154). -/
inductive Pred where
  | yearEq (y : Int)
  | codeEq (c : String)
  | codeIn (cs : List String)
  | catIn (cs : List String)
  deriving DecidableEq

/-- Whether a record passes one predicate, mirroring the pandas boolean masks
`df['Year'] == y`, `df['ISIC Rev 3'] == c`, `df['ISIC Rev 3'].isin(cs)`,
`df['Industry_Category'].isin(cs)`. -/
def predMatches (p : Pred) (r : Record) : Bool :=
  match p with
  | .yearEq y => r.year == y
  | .codeEq c => r.code == c
  | .codeIn cs => cs.contains r.code
  | .catIn cs => cs.contains r.cat

/-- A FilterSpec is a set of zero or more predicates; the script composes them
by chaining mask selections (e.g. line 139 filters `df_kpi_filtered` again). -/
abbrev FilterSpec := List Pred

/-- A record matches a FilterSpec when it passes every predicate (logical AND). -/
def specMatches (s : FilterSpec) (r : Record) : Bool :=
  s.all (fun p => predMatches p r)

/-- Applying a FilterSpec to a table: row selection by the conjoined mask. -/
def filterT (s : FilterSpec) (t : List Record) : List Record :=
  t.filter (specMatches s)

/-- The conjoined spec `a ∧ b`: supply the predicates of both specs. -/
def conj (a b : FilterSpec) : FilterSpec := a ++ b

/-- Line 139: `df_kpi_filtered[df_kpi_filtered['ISIC Rev 3'].isin(selected_industries)]`. -/
def df_filtered_industries (selected : List String) (t : List Record) : List Record :=
  t.filter (fun r => selected.contains r.code)

/-- Line 154, inner mask: `df_kpi_filtered[df_kpi_filtered['Industry_Category'].isin(selected_types_pie)]`. -/
def selected_types_filter (sel : List String) (t : List Record) : List Record :=
  t.filter (fun r => sel.contains r.cat)

/-- Line 215: `df_filtered_year = df[df['Year'] == year_filter]`. -/
def df_filtered_year (y : Int) (t : List Record) : List Record :=
  t.filter (fun r => r.year == y)

/-- Line 219: `df_filtered_industry = df[df['ISIC Rev 3'] == industry_filter]`. -/
def df_filtered_industry (c : String) (t : List Record) : List Record :=
  t.filter (fun r => r.code == c)

/-- The distinct grouping keys of a table in ascending order: pandas
`groupby(key)` sorts group keys ascending (its default `sort=True`). -/
def groupKeys {K : Type} [LinearOrder K] [DecidableEq K]
    (key : Record → K) (t : List Record) : List K :=
  List.insertionSort (· ≤ ·) ((t.map key).dedup)

/-- `t.groupby(key)['Number of Employees'].sum().reset_index()`: one row per
distinct key in ascending key order, carrying the sum of the value column over
that key's group.  Groups with no rows never appear. -/
def groupSumBy {K : Type} [LinearOrder K] [DecidableEq K]
    (key : Record → K) (t : List Record) : List (K × Int) :=
  (groupKeys key t).map
    (fun k => (k, ((t.filter (fun r => decide (key r = k))).map Record.value).sum))

/-- Line 117: `yearly_value = df.groupby('Year')['Number of Employees'].sum().reset_index()`. -/
def yearly_value (t : List Record) : List (Int × Int) :=
  groupSumBy Record.year t

/-- Line 128: `industry_value = df.groupby('ISIC Rev 3')['Number of Employees'].sum().reset_index()`. -/
def industry_value (t : List Record) : List (String × Int) :=
  groupSumBy Record.code t

/-- Line 177: `category_value = df_kpi_filtered.groupby('Industry_Category')['Number of Employees'].sum().reset_index()`. -/
def category_value (t : List Record) : List (String × Int) :=
  groupSumBy Record.cat t

/-- Lines 154-155: the category-membership mask followed by
`groupby('Industry_Category')['Number of Employees'].sum()`. -/
def type_value_pie (sel : List String) (t : List Record) : List (String × Int) :=
  groupSumBy Record.cat (selected_types_filter sel t)

/-- Running totals of a grouped series starting from `acc`, mirroring pandas
`Series.cumsum()` applied to the (key-sorted) grouped sums. -/
def cumsumFrom (acc : Int) : List (Int × Int) → List (Int × Int)
  | [] => []
  | (k, v) :: rest => (k, acc + v) :: cumsumFrom (acc + v) rest

/-- Line 166: `cumulative_value = df_kpi_filtered.groupby('Year')['Number of Employees'].sum().cumsum().reset_index()`. -/
def cumulative_value (t : List Record) : List (Int × Int) :=
  cumsumFrom 0 (yearly_value t)

/-- The maximum year present in a table, `none` when the table is empty. -/
def maxYear? (t : List Record) : Option Int :=
  match t.map Record.year with
  | [] => none
  | y :: ys => some (ys.foldl max y)

/-- Modelled from the spec wording for comparison with the code:
`latestPeriodTotal` = sum of the value column restricted to the rows whose
year equals the maximum year present in the table passed in (0 for an empty
table, where no maximum year exists). -/
def latestPeriodTotalSpec (t : List Record) : Int :=
  match maxYear? t with
  | none => 0
  | some m => ((t.filter (fun r => r.year == m)).map Record.value).sum

/-- The three-record table of the specification's worked scenario. -/
def demoTable : List Record :=
  [⟨2019, "A", "Manufacturing", 10⟩, ⟨2019, "B", "Services", 5⟩,
   ⟨2020, "A", "Manufacturing", 7⟩]

/-- Decimal digit character: `digitChar d` is the character for digit `d`. -/
def digitChar (d : Nat) : Char := Char.ofNat (48 + d)

/-- Decimal digits of a natural number, most significant first, as pandas
prints an integer column cell when writing with `to_csv`. -/
def natChars (n : Nat) : List Char :=
  if _h : n < 10 then [digitChar n]
  else natChars (n / 10) ++ [digitChar (n % 10)]
  decreasing_by exact Nat.div_lt_self (by omega) (by omega)

/-- Numeric value of a decimal digit character, `none` on any other character. -/
def digitVal? (c : Char) : Option Nat :=
  if 48 ≤ c.toNat ∧ c.toNat ≤ 57 then some (c.toNat - 48) else none

/-- Accumulator pass of decimal parsing: consume digit characters left to
right, failing on any non-digit. -/
def parseNatAux : List Char → Nat → Option Nat
  | [], acc => some acc
  | c :: cs, acc =>
    match digitVal? c with
    | none => none
    | some d => parseNatAux cs (10 * acc + d)

/-- Parse a nonempty all-digit cell as a natural number, as pandas type
inference reads an integer column cell. -/
def parseNat (l : List Char) : Option Nat :=
  if l.isEmpty then none else parseNatAux l 0

/-- Integer cell text: optional minus sign, then decimal digits. -/
def intChars (n : Int) : List Char :=
  if n < 0 then '-' :: natChars n.natAbs else natChars n.toNat

/-- Parse an integer cell: optional leading minus sign, then digits. -/
def parseInt (l : List Char) : Option Int :=
  match l with
  | '-' :: rest =>
    match parseNat rest with
    | none => none
    | some m => some (-(m : Int))
  | _ =>
    match parseNat l with
    | none => none
    | some m => some ((m : Int))

/-- Split a character sequence at every occurrence of `c`: the lexical layer
of a delimited file, where `c` is the comma or the line terminator. -/
def splitOnChar (c : Char) : List Char → List (List Char)
  | [] => [[]]
  | x :: xs =>
    match splitOnChar c xs with
    | [] => [[]]
    | h :: t => if x = c then [] :: h :: t else (x :: h) :: t

/-- Join character sequences with separator `c`, the inverse lexical layer. -/
def joinWith (c : Char) : List (List Char) → List Char
  | [] => []
  | p :: ps =>
    match ps with
    | [] => p
    | _ :: _ => p ++ c :: joinWith c ps

/-- The header line written by `to_csv(index=False)` for the dashboard columns. -/
def headerChars : List Char :=
  "Year,ISIC Rev 3,Industry_Category,Number of Employees".data

/-- One data line: the four cells joined by commas, integer cells in decimal. -/
def renderRow (r : Record) : List Char :=
  joinWith ',' [intChars r.year, r.code.data, r.cat.data, intChars r.value]

/-- Line 227, `df.to_csv(index=False)`: the header line and then one line per
record, every line (the last included) terminated by a newline. -/
def to_csv (t : List Record) : List Char :=
  joinWith '\n' (headerChars :: t.map renderRow) ++ ['\n']

/-- Parse one data line into a record: four comma-separated cells, the year
and value cells read as integers (pandas type inference on integer columns),
the industry code and category kept as strings. -/
def parseRow (l : List Char) : Option Record :=
  match splitOnChar ',' l with
  | [y, c, k, v] =>
    match parseInt y, parseInt v with
    | some yi, some vi => some ⟨yi, String.mk c, String.mk k, vi⟩
    | _, _ => none
  | _ => none

/-- Lines 10-11, `pd.read_csv`: split the text into lines, require the header
line, skip blank lines (pandas `skip_blank_lines` default), and parse each
remaining line as a record. -/
def read_csv (text : List Char) : Option (List Record) :=
  match splitOnChar '\n' text with
  | [] => none
  | header :: rest =>
    if header = headerChars then
      (rest.filter (fun l => !(l.isEmpty))).mapM parseRow
    else none

/-- A string cell exportable without CSV quoting: free of the delimiter, the
line terminator, the carriage return and the quote character, so `to_csv`
writes it verbatim. -/
abbrev plainCell (s : String) : Prop :=
  ',' ∉ s.data ∧ '\n' ∉ s.data ∧ '\r' ∉ s.data ∧ '"' ∉ s.data

example : total_value demoTable = 22 := by decide
example : avg_value demoTable = some (22 / 3 : ℚ) := by
  simp [avg_value, demoTable, total_value]
example : yearly_value demoTable = [(2019, 15), (2020, 7)] := by decide
example : cumulative_value demoTable = [(2019, 15), (2020, 22)] := by decide
example : latestPeriodTotalSpec demoTable = 7 := by decide
example : latest_year_value demoTable = 22 := by decide
example : df_filtered_year 2019 demoTable = [⟨2019, "A", "Manufacturing", 10⟩, ⟨2019, "B", "Services", 5⟩] := by decide

/-- Folding `max` over a list whose elements all equal the start value returns it. -/
theorem foldl_max_const {y : Int} :
    ∀ (l : List Int), (∀ x ∈ l, x = y) → l.foldl max y = y
  | [], _ => rfl
  | x :: xs, h => by
    have hx : x = y := h x (List.mem_cons_self x xs)
    have ih := foldl_max_const xs (fun z hz => h z (List.mem_cons_of_mem x hz))
    simpa [hx] using ih

/-- C1 counterexample: on the scenario table (year filter "Overall", so the whole
table is passed to the KPI computation), the third KPI is the full-column sum 22,
while the sum restricted to the maximum year 2020 is 7, so the KPI does not equal
the max-year-restricted sum. -/
theorem c1_counterexample :
    latest_year_value demoTable = 22 ∧ latestPeriodTotalSpec demoTable = 7 ∧
    latest_year_value demoTable ≠ latestPeriodTotalSpec demoTable := by decide

/-- C1 amended: for every table passed to the KPI computation, the
latest-period KPI is the sum of the whole value column — the same sum as the
total KPI — rather than the max-year-restricted sum; whenever every row of
the table shares one year (as when a concrete year, not "Overall", was
selected upstream), it coincides with the max-year-restricted sum. -/
theorem c1_latest_kpi_is_total (t : List Record) :
    latest_year_value t = total_value t ∧
    (∀ y : Int, (∀ r ∈ t, r.year = y) →
      latest_year_value t = latestPeriodTotalSpec t) := by
  refine ⟨rfl, fun y h => ?_⟩
  cases t with
  | nil => rfl
  | cons r rest =>
    have hmax : maxYear? (r :: rest) = some y := by
      have hr : r.year = y := h r (List.mem_cons_self r rest)
      have hall : ∀ x ∈ rest.map Record.year, x = y := by
        intro x hx
        obtain ⟨q, hq, rfl⟩ := List.mem_map.mp hx
        exact h q (List.mem_cons_of_mem r hq)
      simp only [maxYear?, List.map_cons, hr]
      rw [foldl_max_const _ hall]
    have hfilter : (r :: rest).filter (fun q => q.year == y) = r :: rest := by
      rw [List.filter_eq_self]
      intro q hq
      simpa using h q hq
    simp [latestPeriodTotalSpec, hmax, hfilter, latest_year_value]

/-- C1 witness for the amended claim, at the scenario table filtered to 2019,
discharging the single-year hypothesis concretely. -/
theorem c1_witness :
    latest_year_value (df_kpi_filtered (some 2019) demoTable)
        = total_value (df_kpi_filtered (some 2019) demoTable) ∧
    latest_year_value (df_kpi_filtered (some 2019) demoTable)
        = latestPeriodTotalSpec (df_kpi_filtered (some 2019) demoTable) :=
  ⟨(c1_latest_kpi_is_total (df_kpi_filtered (some 2019) demoTable)).1,
   (c1_latest_kpi_is_total (df_kpi_filtered (some 2019) demoTable)).2 2019 (by decide)⟩

/-- C2: the pandas mean of the empty table is NaN (modelled `none`), not a
"no data" report; the spec scenario's empty table, obtained by filtering the
scenario table by an absent industry code, gives the same NaN.  Line 87 then
formats that NaN into the metric text as "nan". -/
theorem c2_avg_empty_is_nan :
    avg_value ([] : List Record) = none ∧
    df_filtered_industry ("Z") demoTable = [] ∧
    avg_value (df_filtered_industry ("Z") demoTable) = none := by decide

/-- C3: applying FilterSpec `a` then `b` equals applying `b` then `a`, and both
equal applying the single conjoined spec `a ∧ b`, for every table. -/
theorem c3_filter_compose_comm (t : List Record) (a b : FilterSpec) :
    filterT b (filterT a t) = filterT a (filterT b t) ∧
    filterT b (filterT a t) = filterT (conj a b) t := by
  have h1 : filterT b (filterT a t)
      = t.filter (fun r => specMatches b r && specMatches a r) :=
    List.filter_filter (specMatches a) t
  have h2 : filterT a (filterT b t)
      = t.filter (fun r => specMatches a r && specMatches b r) :=
    List.filter_filter (specMatches b) t
  constructor
  · rw [h1, h2]
    exact List.filter_congr (fun r _ => Bool.and_comm (specMatches b r) (specMatches a r))
  · rw [h1]
    refine List.filter_congr (fun r _ => ?_)
    simp [specMatches, conj, List.all_append, Bool.and_comm]

/-- C4: a membership filter with an empty selected set returns the empty table
on every non-empty table — never the identity.  This covers the industry
multiselect (line 139), the pie-chart category multiselect (line 154), and the
pie aggregation built on it. -/
theorem c4_empty_membership_yields_empty (t : List Record) (h : t ≠ []) :
    df_filtered_industries [] t = [] ∧ df_filtered_industries [] t ≠ t ∧
    selected_types_filter [] t = [] ∧ selected_types_filter [] t ≠ t ∧
    type_value_pie [] t = [] := by
  have h1 : df_filtered_industries [] t = [] := by
    simp [df_filtered_industries]
  have h2 : selected_types_filter [] t = [] := by
    simp [selected_types_filter]
  refine ⟨h1, ?_, h2, ?_, ?_⟩
  · rw [h1]; exact fun hc => h hc.symm
  · rw [h2]; exact fun hc => h hc.symm
  · simp [type_value_pie, h2, groupSumBy, groupKeys]

/-- C4 witness at the non-empty scenario table. -/
theorem c4_witness :
    df_filtered_industries [] demoTable = [] ∧ df_filtered_industries [] demoTable ≠ demoTable ∧
    selected_types_filter [] demoTable = [] ∧ selected_types_filter [] demoTable ≠ demoTable ∧
    type_value_pie [] demoTable = [] :=
  c4_empty_membership_yields_empty demoTable (by decide)

/-- Splitting a value-column sum at a boolean mask. -/
theorem sum_split_filter (p : Record → Bool) (t : List Record) :
    ((t.filter p).map Record.value).sum
      + ((t.filter (fun r => !(p r))).map Record.value).sum
      = (t.map Record.value).sum := by
  induction t with
  | nil => rfl
  | cons a l ih =>
    cases hp : p a <;> simp [List.filter_cons, hp] <;> omega

/-- Summing value-column fibers over a duplicate-free key list that covers the
key of every row gives the whole-column sum. -/
theorem sum_fibers {K : Type} [DecidableEq K] (key : Record → K) :
    ∀ (ks : List K) (t : List Record), ks.Nodup → (∀ r ∈ t, key r ∈ ks) →
      (ks.map (fun k =>
        ((t.filter (fun r => decide (key r = k))).map Record.value).sum)).sum
      = (t.map Record.value).sum
  | [], t, _, hcov => by
    cases t with
    | nil => rfl
    | cons a l => exact absurd (hcov a (List.mem_cons_self a l)) (List.not_mem_nil _)
  | k :: ks, t, hnd, hcov => by
    have hnd' : ks.Nodup := (List.nodup_cons.mp hnd).2
    have hk : k ∉ ks := (List.nodup_cons.mp hnd).1
    have hcov' : ∀ r ∈ t.filter (fun r => !(decide (key r = k))), key r ∈ ks := by
      intro r hr
      have hmem := List.mem_filter.mp hr
      rcases List.mem_cons.mp (hcov r hmem.1) with h | h
      · exfalso
        have := hmem.2
        simp [h] at this
      · exact h
    have htail : ∀ k2 ∈ ks,
        t.filter (fun r => decide (key r = k2))
          = (t.filter (fun r => !(decide (key r = k)))).filter
              (fun r => decide (key r = k2)) := by
      intro k2 hk2
      rw [List.filter_filter]
      refine List.filter_congr (fun r _ => ?_)
      by_cases h : key r = k2
      · have hne : key r ≠ k := fun e => hk ((h.symm.trans e) ▸ hk2)
        have hne2 : ¬ k2 = k := fun e => hk (e ▸ hk2)
        simp [h, hne, hne2]
      · simp [h]
    have hmap : (ks.map (fun k2 =>
          ((t.filter (fun r => decide (key r = k2))).map Record.value).sum))
        = (ks.map (fun k2 =>
          (((t.filter (fun r => !(decide (key r = k)))).filter
              (fun r => decide (key r = k2))).map Record.value).sum)) :=
      List.map_congr_left (fun k2 hk2 => by rw [htail k2 hk2])
    have ih := sum_fibers key ks (t.filter (fun r => !(decide (key r = k)))) hnd' hcov'
    simp only [List.map_cons, List.sum_cons, hmap, ih]
    exact sum_split_filter (fun r => decide (key r = k)) t

/-- Summing the per-group sums of `groupSumBy` gives the whole-column sum. -/
theorem groupSumBy_total {K : Type} [LinearOrder K] [DecidableEq K]
    (key : Record → K) (t : List Record) :
    ((groupSumBy key t).map Prod.snd).sum = total_value t := by
  unfold groupSumBy total_value
  rw [List.map_map]
  have hnd : (groupKeys key t).Nodup :=
    (List.perm_insertionSort _ _).nodup_iff.mpr (List.nodup_dedup _)
  have hcov : ∀ r ∈ t, key r ∈ groupKeys key t := by
    intro r hr
    rw [groupKeys, (List.perm_insertionSort _ _).mem_iff, List.mem_dedup]
    exact List.mem_map_of_mem key hr
  exact sum_fibers key (groupKeys key t) t hnd hcov

/-- C5: summing all group values of the grouped sums equals the total KPI on
the same table, for each grouping key used by the dashboard (year, industry
code, industry category). -/
theorem c5_group_sums_equal_total (t : List Record) :
    ((yearly_value t).map Prod.snd).sum = total_value t ∧
    ((industry_value t).map Prod.snd).sum = total_value t ∧
    ((category_value t).map Prod.snd).sum = total_value t :=
  ⟨groupSumBy_total Record.year t, groupSumBy_total Record.code t,
   groupSumBy_total Record.cat t⟩

/-- The running-total series has one entry per grouped entry. -/
theorem cumsumFrom_length (acc : Int) :
    ∀ (l : List (Int × Int)), (cumsumFrom acc l).length = l.length
  | [] => rfl
  | (k, v) :: rest => by
    simp [cumsumFrom, cumsumFrom_length (acc + v) rest]

/-- The running-total series carries the grouped keys unchanged and in order. -/
theorem cumsumFrom_keys (acc : Int) :
    ∀ (l : List (Int × Int)), (cumsumFrom acc l).map Prod.fst = l.map Prod.fst
  | [] => rfl
  | (k, v) :: rest => by
    simp [cumsumFrom, cumsumFrom_keys (acc + v) rest]

/-- Entry `i` of the running-total series is the start value plus the sum of
the first `i + 1` grouped values. -/
theorem cumsumFrom_getD :
    ∀ (l : List (Int × Int)) (acc : Int) (i : Nat), i < l.length →
      ((cumsumFrom acc l).map Prod.snd).getD i 0
        = acc + ((l.map Prod.snd).take (i + 1)).sum
  | [], _, i, h => absurd h (by simp)
  | (k, v) :: rest, acc, 0, _ => by
    simp [cumsumFrom]
  | (k, v) :: rest, acc, i + 1, h => by
    have h' : i < rest.length := by simpa using h
    have ih := cumsumFrom_getD rest (acc + v) i h'
    have hred : (cumsumFrom acc ((k, v) :: rest)).map Prod.snd
        = (acc + v) :: (cumsumFrom (acc + v) rest).map Prod.snd := rfl
    rw [hred, List.getD_cons_succ, ih]
    simp [add_assoc]

/-- The last running total is the start value plus the sum of all grouped values. -/
theorem cumsumFrom_getLast? :
    ∀ (l : List (Int × Int)) (acc : Int), l ≠ [] →
      ((cumsumFrom acc l).getLast?).map Prod.snd
        = some (acc + ((l.map Prod.snd).sum))
  | [], _, h => absurd rfl h
  | [(k, v)], acc, _ => by
    simp [cumsumFrom]
  | (k1, v1) :: (k2, v2) :: rest, acc, _ => by
    have ih := cumsumFrom_getLast? ((k2, v2) :: rest) (acc + v1) (by simp)
    have hstep : cumsumFrom acc ((k1, v1) :: (k2, v2) :: rest)
        = (k1, acc + v1) :: cumsumFrom (acc + v1) ((k2, v2) :: rest) := rfl
    have hcc : cumsumFrom (acc + v1) ((k2, v2) :: rest)
        = (k2, acc + v1 + v2) :: cumsumFrom (acc + v1 + v2) rest := rfl
    rw [hstep, hcc, List.getLast?_cons_cons, ← hcc, ih]
    simp [add_assoc]

/-- A weakly sorted duplicate-free list is strictly sorted. -/
theorem sorted_lt_of_sorted_le {K : Type} [LinearOrder K] :
    ∀ {l : List K}, List.Sorted (· ≤ ·) l → l.Nodup → List.Sorted (· < ·) l := by
  intro l
  induction l with
  | nil => intro _ _; simp
  | cons a tl ih =>
    intro h1 h2
    simp only [List.sorted_cons] at h1 ⊢
    simp only [List.nodup_cons] at h2
    exact ⟨fun b hb => lt_of_le_of_ne (h1.1 b hb) (by rintro rfl; exact h2.1 hb),
      ih h1.2 h2.2⟩

/-- The group keys are strictly ascending. -/
theorem groupKeys_sorted_lt {K : Type} [LinearOrder K] [DecidableEq K]
    (key : Record → K) (t : List Record) :
    List.Sorted (· < ·) (groupKeys key t) :=
  sorted_lt_of_sorted_le (List.sorted_insertionSort _ _)
    ((List.perm_insertionSort _ _).nodup_iff.mpr (List.nodup_dedup _))

/-- There are as many group keys as distinct key values in the table. -/
theorem groupKeys_length {K : Type} [LinearOrder K] [DecidableEq K]
    (key : Record → K) (t : List Record) :
    (groupKeys key t).length = ((t.map key).dedup).length :=
  (List.perm_insertionSort _ _).length_eq

/-- C6: the cumulative series carries the grouped year keys in strictly
ascending order, has one entry per distinct year present in the table, each
entry is the running total of the grouped sums up to and including it, and the
last running total equals the sum of all grouped sums combined. -/
theorem c6_cumulative_structure (t : List Record) :
    (cumulative_value t).map Prod.fst = (yearly_value t).map Prod.fst ∧
    List.Sorted (· < ·) ((cumulative_value t).map Prod.fst) ∧
    (cumulative_value t).length = ((t.map Record.year).dedup).length ∧
    (∀ i, i < (cumulative_value t).length →
        ((cumulative_value t).map Prod.snd).getD i 0
          = (((yearly_value t).map Prod.snd).take (i + 1)).sum) ∧
    (t ≠ [] → ((cumulative_value t).getLast?).map Prod.snd
          = some (((yearly_value t).map Prod.snd).sum)) := by
  have hkeys : (cumulative_value t).map Prod.fst = (yearly_value t).map Prod.fst :=
    cumsumFrom_keys 0 (yearly_value t)
  have hyk : (yearly_value t).map Prod.fst = groupKeys Record.year t := by
    rw [yearly_value, groupSumBy, List.map_map]
    exact List.map_id _
  have hlen0 : (yearly_value t).length = ((t.map Record.year).dedup).length := by
    rw [yearly_value, groupSumBy, List.length_map]
    exact groupKeys_length Record.year t
  refine ⟨hkeys, ?_, ?_, ?_, ?_⟩
  · rw [hkeys, hyk]
    exact groupKeys_sorted_lt Record.year t
  · rw [cumulative_value, cumsumFrom_length]
    exact hlen0
  · intro i hi
    rw [cumulative_value] at hi ⊢
    rw [cumsumFrom_length] at hi
    simpa using cumsumFrom_getD (yearly_value t) 0 i hi
  · intro hne
    have hdne : (t.map Record.year).dedup ≠ [] := by
      intro hd
      have : t.map Record.year = [] := by
        rw [← List.dedup_eq_nil]
        exact hd
      exact hne (List.map_eq_nil_iff.mp this)
    have hyne : yearly_value t ≠ [] := by
      intro h0
      have : (yearly_value t).length = 0 := by rw [h0]; rfl
      rw [hlen0] at this
      exact hdne (List.length_eq_zero.mp this)
    simpa using cumsumFrom_getLast? (yearly_value t) 0 hyne

/-- C6 witness at the scenario table, discharging the hypotheses concretely:
the second running total is the sum of the first two grouped sums, and the
last running total is the sum of all grouped sums. -/
theorem c6_witness :
    ((cumulative_value demoTable).map Prod.snd).getD 1 0
        = (((yearly_value demoTable).map Prod.snd).take 2).sum ∧
    ((cumulative_value demoTable).getLast?).map Prod.snd
        = some (((yearly_value demoTable).map Prod.snd).sum) :=
  ⟨(c6_cumulative_structure demoTable).2.2.2.1 1 (by decide),
   (c6_cumulative_structure demoTable).2.2.2.2 (by decide)⟩

/-- C8: the "Overall" sentinel year selection is the identity filter, and a
concrete year selection keeps exactly the records of the selected year. -/
theorem c8_year_filter_sentinel (df : List Record) (y : Int) :
    df_kpi_filtered none df = df ∧
    (∀ r, r ∈ df_kpi_filtered (some y) df ↔ r ∈ df ∧ r.year = y) := by
  refine ⟨rfl, fun r => ?_⟩
  simp [df_kpi_filtered, List.mem_filter]

/-- C9: a filtered table is a sublist of the input (hence keeps relative order),
its members are exactly the matching input records, and each record occurs in it
with its input multiplicity when it matches and zero times otherwise. -/
theorem c9_filter_exact_order (s : FilterSpec) (t : List Record) :
    (filterT s t).Sublist t ∧
    (∀ r, r ∈ filterT s t ↔ r ∈ t ∧ specMatches s r = true) ∧
    (∀ r, (filterT s t).count r = if specMatches s r then t.count r else 0) := by
  refine ⟨List.filter_sublist t, fun r => List.mem_filter, fun r => ?_⟩
  by_cases hm : specMatches s r
  · rw [if_pos hm]
    exact List.count_filter hm
  · rw [if_neg hm]
    simp [filterT, List.count_eq_zero, List.mem_filter, hm]

/-- C10: the third KPI (line 90) and the first KPI (line 80) are the same
column sum over the same filtered table, for every year selection including
the "Overall" sentinel. -/
theorem c10_third_kpi_equals_first (sel : Option Int) (df : List Record) :
    latest_year_value (df_kpi_filtered sel df) = total_value (df_kpi_filtered sel df) := rfl

/-- Digit characters decode to their digit value. -/
theorem digitVal?_digitChar (d : Nat) (hd : d < 10) :
    digitVal? (digitChar d) = some d := by
  interval_cases d <;> decide

/-- Digit characters are not the minus sign, comma, newline, carriage return
or quote. -/
theorem digitChar_ne (d : Nat) (hd : d < 10) :
    digitChar d ≠ '-' ∧ digitChar d ≠ ',' ∧ digitChar d ≠ '\n' ∧
    digitChar d ≠ '\r' ∧ digitChar d ≠ '"' := by
  interval_cases d <;> decide

/-- A printed natural number is never the empty cell. -/
theorem natChars_ne_nil (n : Nat) : natChars n ≠ [] := by
  rw [natChars]
  split <;> simp

/-- Every character of a printed natural number is a digit character. -/
theorem natChars_digits (n : Nat) :
    ∀ c ∈ natChars n, ∃ d, d < 10 ∧ c = digitChar d := by
  induction n using Nat.strong_induction_on with
  | _ n ih =>
    rw [natChars]
    split
    · next h =>
      intro c hc
      simp only [List.mem_singleton] at hc
      exact ⟨n, h, hc⟩
    · next h =>
      intro c hc
      rcases List.mem_append.mp hc with hc | hc
      · exact ih (n / 10) (Nat.div_lt_self (by omega) (by omega)) c hc
      · simp only [List.mem_singleton] at hc
        exact ⟨n % 10, Nat.mod_lt _ (by omega), hc⟩

/-- Parsing distributes over appended character sequences. -/
theorem parseNatAux_append (xs ys : List Char) :
    ∀ acc, parseNatAux (xs ++ ys) acc
      = (parseNatAux xs acc).bind (fun m => parseNatAux ys m) := by
  induction xs with
  | nil => intro acc; rfl
  | cons c cs ih =>
    intro acc
    simp only [List.cons_append, parseNatAux]
    cases digitVal? c with
    | none => rfl
    | some d => exact ih (10 * acc + d)

/-- Parsing the printed digits of `n` starting from accumulator `acc` scales
`acc` by the number of digits and adds `n`. -/
theorem parseNatAux_natChars (n : Nat) : ∀ acc,
    parseNatAux (natChars n) acc
      = some (acc * 10 ^ (natChars n).length + n) := by
  induction n using Nat.strong_induction_on with
  | _ n ih =>
    intro acc
    rw [natChars]
    split
    · next h =>
      simp [parseNatAux, digitVal?_digitChar n h]
      omega
    · next h =>
      rw [parseNatAux_append]
      rw [ih (n / 10) (Nat.div_lt_self (by omega) (by omega)) acc]
      simp only [Option.some_bind]
      simp [parseNatAux, digitVal?_digitChar (n % 10) (Nat.mod_lt _ (by omega)),
        List.length_append]
      have hdm : 10 * (n / 10) + n % 10 = n := Nat.div_add_mod n 10
      calc 10 * (acc * 10 ^ (natChars (n / 10)).length + n / 10) + n % 10
          = acc * (10 ^ (natChars (n / 10)).length * 10)
              + (10 * (n / 10) + n % 10) := by ring
        _ = acc * 10 ^ ((natChars (n / 10)).length + 1) + n := by
            rw [hdm, pow_succ]

/-- Printing then parsing a natural number is the identity. -/
theorem parseNat_natChars (n : Nat) : parseNat (natChars n) = some n := by
  rw [parseNat, if_neg, parseNatAux_natChars n 0]
  · simp
  · simpa [List.isEmpty_iff] using natChars_ne_nil n

/-- Printed integers contain neither the delimiter nor the line terminator. -/
theorem intChars_no_sep (n : Int) : ',' ∉ intChars n ∧ '\n' ∉ intChars n := by
  have hnat : ∀ m : Nat, ',' ∉ natChars m ∧ '\n' ∉ natChars m := by
    intro m
    constructor <;> intro hc
    · obtain ⟨d, hd, he⟩ := natChars_digits m ',' hc
      exact (digitChar_ne d hd).2.1 he.symm
    · obtain ⟨d, hd, he⟩ := natChars_digits m '\n' hc
      exact (digitChar_ne d hd).2.2.1 he.symm
  rw [intChars]
  split
  · constructor <;> intro hc <;> rcases List.mem_cons.mp hc with hc | hc
    · exact absurd hc (by decide)
    · exact (hnat _).1 hc
    · exact absurd hc (by decide)
    · exact (hnat _).2 hc
  · exact hnat _

/-- Printing then parsing an integer is the identity. -/
theorem parseInt_intChars (n : Int) : parseInt (intChars n) = some n := by
  rw [intChars]
  split
  · next h =>
    show parseInt ('-' :: natChars n.natAbs) = some n
    rw [parseInt, parseNat_natChars]
    have hab : -((n.natAbs : Nat) : Int) = n := by omega
    simp only [hab]
  · next h =>
    cases hcl : natChars n.toNat with
    | nil => exact absurd hcl (natChars_ne_nil _)
    | cons c cs =>
      obtain ⟨d, hd, rfl⟩ :=
        natChars_digits n.toNat c (hcl ▸ List.mem_cons_self c cs)
      unfold parseInt
      split
      · next heq =>
        exfalso
        have hminus : digitChar d = '-' := ((List.cons.injEq ..).mp heq).1
        exact (digitChar_ne d hd).1 hminus
      · rw [← hcl, parseNat_natChars]
        have htn : ((n.toNat : Nat) : Int) = n := by omega
        simp [htn]

/-- Splitting never produces the empty list of parts. -/
theorem splitOnChar_ne_nil (c : Char) : ∀ (l : List Char), splitOnChar c l ≠ []
  | [] => by simp [splitOnChar]
  | x :: xs => by
    have := splitOnChar_ne_nil c xs
    rw [splitOnChar]
    cases h : splitOnChar c xs with
    | nil => exact absurd h this
    | cons hd tl =>
      by_cases hx : x = c <;> simp [hx]

/-- Splitting a separator-free sequence yields that single part. -/
theorem splitOnChar_not_mem (c : Char) :
    ∀ (p : List Char), c ∉ p → splitOnChar c p = [p]
  | [], _ => rfl
  | x :: xs, h => by
    have hx : x ≠ c := fun e => h (e ▸ List.mem_cons_self x xs)
    have ih := splitOnChar_not_mem c xs (fun hm => h (List.mem_cons_of_mem x hm))
    rw [splitOnChar, ih]
    simp [hx]

/-- Splitting a sequence that starts with a separator-free part followed by a
separator peels off that part. -/
theorem splitOnChar_sep (c : Char) :
    ∀ (p : List Char), c ∉ p → ∀ (rest : List Char),
      splitOnChar c (p ++ c :: rest) = p :: splitOnChar c rest
  | [], _, rest => by
    rw [List.nil_append, splitOnChar]
    cases h : splitOnChar c rest with
    | nil => exact absurd h (splitOnChar_ne_nil c rest)
    | cons hd tl => simp
  | x :: xs, h, rest => by
    have hx : x ≠ c := fun e => h (e ▸ List.mem_cons_self x xs)
    have ih := splitOnChar_sep c xs (fun hm => h (List.mem_cons_of_mem x hm)) rest
    rw [List.cons_append, splitOnChar, ih]
    simp [hx]

/-- Splitting inverts joining when no part contains the separator. -/
theorem splitOnChar_joinWith (c : Char) :
    ∀ (parts : List (List Char)), parts ≠ [] → (∀ p ∈ parts, c ∉ p) →
      splitOnChar c (joinWith c parts) = parts
  | [], h, _ => absurd rfl h
  | [p], _, hc => splitOnChar_not_mem c p (hc p (List.mem_singleton.mpr rfl))
  | p :: q :: ps, _, hc => by
    have hj : joinWith c (p :: q :: ps) = p ++ c :: joinWith c (q :: ps) := rfl
    rw [hj, splitOnChar_sep c p (hc p (List.mem_cons_self p (q :: ps)))]
    rw [splitOnChar_joinWith c (q :: ps) (by simp)
      (fun x hx => hc x (List.mem_cons_of_mem p hx))]

/-- Appending an empty final part turns into a trailing separator. -/
theorem joinWith_append_nil (c : Char) :
    ∀ (parts : List (List Char)), parts ≠ [] →
      joinWith c (parts ++ [[]]) = joinWith c parts ++ [c]
  | [], h => absurd rfl h
  | [p], _ => by
    show joinWith c [p, []] = p ++ [c]
    rfl
  | p :: q :: ps, _ => by
    have h1 : joinWith c ((p :: q :: ps) ++ [[]])
        = p ++ c :: joinWith c ((q :: ps) ++ [[]]) := rfl
    have h2 : joinWith c (p :: q :: ps) = p ++ c :: joinWith c (q :: ps) := rfl
    rw [h1, h2, joinWith_append_nil c (q :: ps) (by simp)]
    simp

/-- A rendered row contains neither comma problems nor newlines when its
string cells are plain: the only commas are the three cell separators. -/
theorem renderRow_no_newline (r : Record)
    (hc : plainCell r.code) (hk : plainCell r.cat) :
    '\n' ∉ renderRow r := by
  intro hmem
  have hj : renderRow r
      = intChars r.year ++ ',' :: (r.code.data ++ ',' :: (r.cat.data ++ ',' :: intChars r.value)) := rfl
  rw [hj] at hmem
  rcases List.mem_append.mp hmem with h | h
  · exact (intChars_no_sep r.year).2 h
  · rcases List.mem_cons.mp h with h | h
    · exact absurd h (by decide)
    · rcases List.mem_append.mp h with h | h
      · exact hc.2.1 h
      · rcases List.mem_cons.mp h with h | h
        · exact absurd h (by decide)
        · rcases List.mem_append.mp h with h | h
          · exact hk.2.1 h
          · rcases List.mem_cons.mp h with h | h
            · exact absurd h (by decide)
            · exact (intChars_no_sep r.value).2 h

/-- A rendered row is never a blank line. -/
theorem renderRow_ne_nil (r : Record) : renderRow r ≠ [] := by
  have hj : renderRow r
      = intChars r.year ++ ',' :: (r.code.data ++ ',' :: (r.cat.data ++ ',' :: intChars r.value)) := rfl
  rw [hj]
  simp

/-- Parsing inverts rendering on a single record with plain string cells. -/
theorem parseRow_renderRow (r : Record)
    (hc : plainCell r.code) (hk : plainCell r.cat) :
    parseRow (renderRow r) = some r := by
  have hsplit : splitOnChar ',' (renderRow r)
      = [intChars r.year, r.code.data, r.cat.data, intChars r.value] := by
    refine splitOnChar_joinWith ',' _ (by simp) ?_
    intro p hp
    simp only [List.mem_cons, List.mem_singleton] at hp
    rcases hp with rfl | rfl | rfl | rfl | h
    · exact (intChars_no_sep r.year).1
    · exact hc.1
    · exact hk.1
    · exact (intChars_no_sep r.value).1
    · exact absurd h (List.not_mem_nil p)
  rw [parseRow, hsplit]
  simp only [parseInt_intChars]

/-- Parsing inverts rendering line by line across a whole table. -/
theorem mapM_parseRow_renderRow :
    ∀ (t : List Record), (∀ r ∈ t, plainCell r.code ∧ plainCell r.cat) →
      (t.map renderRow).mapM parseRow = some t
  | [], _ => rfl
  | r :: rest, h => by
    have hr := parseRow_renderRow r (h r (List.mem_cons_self r rest)).1
      (h r (List.mem_cons_self r rest)).2
    have ih := mapM_parseRow_renderRow rest
      (fun q hq => h q (List.mem_cons_of_mem r hq))
    rw [← List.mapM'_eq_mapM] at ih ⊢
    simp [List.mapM'_cons, hr, ih]

/-- C7: loading an exported table returns exactly the exported table — same
header, same column order, same records — for every table whose string cells
are exportable without CSV quoting. -/
theorem c7_load_export_roundtrip (t : List Record)
    (h : ∀ r ∈ t, plainCell r.code ∧ plainCell r.cat) :
    read_csv (to_csv t) = some t := by
  have hnonl : ∀ p ∈ headerChars :: t.map renderRow, '\n' ∉ p := by
    intro p hp
    rcases List.mem_cons.mp hp with rfl | hp
    · decide
    · obtain ⟨r, hr, rfl⟩ := List.mem_map.mp hp
      exact renderRow_no_newline r (h r hr).1 (h r hr).2
  have hto : to_csv t
      = joinWith '\n' ((headerChars :: t.map renderRow) ++ [[]]) := by
    rw [to_csv, joinWith_append_nil '\n' _ (by simp)]
  have hsplit : splitOnChar '\n' (to_csv t)
      = headerChars :: (t.map renderRow ++ [[]]) := by
    rw [hto]
    rw [splitOnChar_joinWith '\n' _ (by simp) ?_]
    · rw [List.cons_append]
    · intro p hp
      rcases List.mem_append.mp hp with hp | hp
      · exact hnonl p hp
      · simp only [List.mem_singleton] at hp
        subst hp
        exact List.not_mem_nil _
  have hfilter : (t.map renderRow ++ [[]]).filter (fun l => !(l.isEmpty))
      = t.map renderRow := by
    rw [List.filter_append]
    have h1 : (t.map renderRow).filter (fun l => !(l.isEmpty)) = t.map renderRow := by
      rw [List.filter_eq_self]
      intro l hl
      obtain ⟨r, hr, rfl⟩ := List.mem_map.mp hl
      simp [List.isEmpty_iff, renderRow_ne_nil r]
    have h2 : ([[]] : List (List Char)).filter (fun l => !(l.isEmpty)) = [] := rfl
    rw [h1, h2, List.append_nil]
  unfold read_csv
  rw [hsplit]
  simp only [if_pos rfl, hfilter]
  exact mapM_parseRow_renderRow t h

/-- C7 witness at the scenario table. -/
theorem c7_witness : read_csv (to_csv demoTable) = some demoTable :=
  c7_load_export_roundtrip demoTable (by decide)

end IndustrialDashboard
